import Mathlib

/-!
Verification of the sldshow image-cache core.

Shallow embedding of the proximity-cache / preload subsystem of the
sldshow image viewer (`src/image_loader.rs`, the preload worker loop in
`src/main.rs`, `modulo` in `src/utils.rs`, and the navigation helpers in
`src/state.rs`), together with proofs of the specified properties.

Modelling conventions:
* `PathBuf` is modelled as `String`; `image::RgbaImage` as an `Image`
  record of dimensions plus a flat RGBA byte list (`RgbaImage::new w h`
  zero-fills).
* `HashMap<usize, ImageCache>` is modelled as an association list
  `List (Nat × ImageCache)`; `insert` replaces the key if present, so
  key-distinctness (`CacheKeysNodup`) is an invariant, as for the real
  `HashMap`.  Iteration order over the keys is the list order, standing
  for the `HashMap`'s unspecified iteration order.
* Rust `usize`/`i32` arithmetic is modelled on `Nat`/`Int`; the one place
  where a `usize` subtraction can underflow (`scanned_paths.len() - 1`)
  is modelled with a checked subtraction returning `Option`, `none`
  standing for the panic.
* File decoding (`ImageLoader::open_and_resize_image`) is external I/O;
  it is passed in as a parameter `decode : Nat → String → Except String Image`
  (`.error e` carries the error's display string, as `err.to_string()`).
* `Option::unwrap` on a missing value (worker thread, `main.rs`) is
  modelled by returning `none` from the step function, standing for the
  panic.
-/

/-- Decoded pixel buffer; `image::RgbaImage` with its dimensions and raw
RGBA samples.  `Image.new` is `RgbaImage::new`, which zero-fills. -/
structure Image where
  width : Nat
  height : Nat
  data : List Nat
  deriving DecidableEq, Repr

def Image.new (w h : Nat) : Image :=
  { width := w, height := h, data := List.replicate (w * h * 4) 0 }

/-- Cache entry `ImageCache` from `src/image_loader.rs`: one cache entry. -/
structure ImageCache where
  path : Option String
  image : Image
  emsg : Option String
  deriving DecidableEq, Repr

/-- The cache map: association list standing for
`HashMap<usize, ImageCache>`. -/
abbrev CacheMap := List (Nat × ImageCache)

def CacheMap.containsKey (cache : CacheMap) (k : Nat) : Bool :=
  cache.any (fun p => p.1 == k)

def CacheMap.get? (cache : CacheMap) (k : Nat) : Option ImageCache :=
  (cache.find? (fun p => p.1 == k)).map Prod.snd

/-- Map insertion `HashMap::insert`: replaces any existing binding of the key. -/
def CacheMap.insert (cache : CacheMap) (k : Nat) (v : ImageCache) : CacheMap :=
  (k, v) :: cache.filter (fun p => p.1 ≠ k)

/-- Map removal `HashMap::remove`. -/
def CacheMap.remove (cache : CacheMap) (k : Nat) : CacheMap :=
  cache.filter (fun p => p.1 ≠ k)

/-- The `HashMap` invariant: each key is bound at most once. -/
def CacheKeysNodup (cache : CacheMap) : Prop :=
  (cache.map Prod.fst).Nodup

/-- Function `modulo` from `src/utils.rs`: `((a % b) + b) % b`, with Rust's `%`
(truncated remainder, `Int.tmod`). -/
def modulo (a b : Int) : Int :=
  (a.tmod b + b).tmod b

/-- Structure `ImageLoader` from `src/image_loader.rs`.  Fields that only carry
file-system and GPU configuration (`scan_subfolders`,
`supported_extensions`, `texture_size`, `resize_filter`, `current_path`)
are not needed by any modelled operation and are omitted; `texture_size`
and `resize_filter` are absorbed into the `decode` parameter. -/
structure ImageLoader where
  cache : CacheMap
  preload_queue : List Nat
  scanned_paths : List String
  current_index : Nat
  cache_extent : Nat
  max_cache_size : Nat
  deriving DecidableEq, Repr

/-- Constructor `ImageLoader::new` (the cache-relevant fields): empty cache and
queue, position 0, `max_cache_size = cache_extent * 2 + 1`. -/
def ImageLoader.new (cache_extent : Nat) : ImageLoader :=
  { cache := []
    preload_queue := []
    scanned_paths := []
    current_index := 0
    cache_extent := cache_extent
    max_cache_size := cache_extent * 2 + 1 }

/-- Method `ImageLoader::index_distance`: circular distance on the catalog. -/
def ImageLoader.index_distance (self : ImageLoader) (a b : Nat) : Nat :=
  if a = b then 0
  else
    let len := self.scanned_paths.length
    let high := max a b
    let low := min a b
    let foward := high - low
    if foward ≤ len / 2 then foward
    else len - high + low

/-- Method `ImageLoader::get_next_index`: wrapped advance; `None` when the
catalog has at most one entry. -/
def ImageLoader.get_next_index (self : ImageLoader) (amount : Int) : Option Nat :=
  let len : Int := self.scanned_paths.length
  if len ≤ 1 then none
  else
    let index : Int := (self.current_index : Int) + amount
    let index := if index < 0 ∨ index ≥ len then modulo index len else index
    some index.toNat

/-- Method `ImageLoader::next_index`: mutate `current_index` when the advance is
defined. -/
def ImageLoader.next_index (self : ImageLoader) (amount : Int) : ImageLoader :=
  match self.get_next_index amount with
  | some index => { self with current_index := index }
  | none => self

/-- Checked `usize` subtraction: `none` stands for the underflow panic. -/
def checkedSub (a b : Nat) : Option Nat :=
  if b ≤ a then some (a - b) else none

/-- Method `ImageLoader::is_last`: `current_index == scanned_paths.len() - 1`;
the subtraction underflows when the catalog is empty. -/
def ImageLoader.is_last (self : ImageLoader) : Option Bool :=
  (checkedSub self.scanned_paths.length 1).map
    (fun n => decide (self.current_index = n))

/-- Method `State::last_image` from `src/state.rs` (the loader mutation only):
`current_index = scanned_paths.len() - 1`, underflowing when empty. -/
def ImageLoader.last_image (self : ImageLoader) : Option ImageLoader :=
  (checkedSub self.scanned_paths.length 1).map
    (fun n => { self with current_index := n })

/-- Loop of `ImageLoader::limit_cache`: `while` loop, with the tracked
`cache_count` as structural fuel.  Each pass finds the maximum circular
distance from the current position over the cached keys, removes the
first key at that distance (list order standing for `HashMap` iteration
order), and decrements the count.  At `cache_count = 0` the `while`
condition `0 > max_cache_size` can never hold, so that case exits
directly with `Ok`. -/
def ImageLoader.limit_cache_loop (self : ImageLoader) : Nat → Except String ImageLoader
  | 0 => .ok self
  | n + 1 =>
    if n + 1 > self.max_cache_size then
      match (self.cache.map
          (fun p => self.index_distance self.current_index p.1)).max? with
      | none => .error "cannot get a max distance in cache."
      | some max_dist =>
        match self.cache.find?
            (fun p => self.index_distance self.current_index p.1 == max_dist) with
        | none => .error "cannot get a key"
        | some entry =>
          ImageLoader.limit_cache_loop
            { self with cache := self.cache.remove entry.1 } n
    else .ok self

/-- Method `ImageLoader::limit_cache` (the spec's `trim()`). -/
def ImageLoader.limit_cache (self : ImageLoader) : Except String ImageLoader :=
  self.limit_cache_loop self.cache.length

/-- Method `ImageLoader::ensure_cache`: if the index is not cached, decode it
(placeholders for a missing path or a failed decode) and insert. -/
def ImageLoader.ensure_cache (decode : Nat → String → Except String Image)
    (self : ImageLoader) (index : Nat) : Except String ImageLoader :=
  if self.cache.containsKey index then .ok self
  else
    let entry : ImageCache :=
      match self.scanned_paths.get? index with
      | some path =>
        match decode index path with
        | .ok image => { path := some path, image := image, emsg := none }
        | .error err =>
          { path := some path, image := Image.new 1 1, emsg := some err }
      | none => { path := none, image := Image.new 1 1, emsg := none }
    .ok { self with cache := self.cache.insert index entry }

/-- The preload-queue rebuild loop inside `ImageLoader::get_current`:
`for i in 1..=cache_extent` push `get_next_index(i)` then
`get_next_index(-i)` when defined. -/
def ImageLoader.build_queue (self : ImageLoader) : List Nat :=
  (List.range self.cache_extent).foldl
    (fun (q : List Nat) (i : Nat) =>
      let amount : Int := (i : Int) + 1
      let q := q ++ (self.get_next_index amount).toList
      q ++ (self.get_next_index (-amount)).toList)
    []

/-- Method `ImageLoader::get_current`: ensure the current index is cached, look
it up, rebuild the preload queue, return the entry. -/
def ImageLoader.get_current (decode : Nat → String → Except String Image)
    (self : ImageLoader) : Except String (ImageLoader × ImageCache) := do
  let index := self.current_index
  let self ← self.ensure_cache decode index
  match self.cache.get? index with
  | none => .error "faild to load an image cache."
  | some image_cache =>
    .ok ({ self with preload_queue := self.build_queue }, image_cache)

/-- One iteration of the preload worker loop (`main.rs`, image loader
thread): pop a planned index, compute `load_needed`, then
`scanned_paths.get(index).unwrap()` — `none` stands for the panic when
the index is out of the catalog's bounds.  When a load was needed,
decode and insert; on a falling edge of `load_needed`, run
`limit_cache` and discard its error (`log_err`).  Returns the loader and
the new `prev_load_needed`. -/
def worker_step (decode : Nat → String → Except String Image)
    (self : ImageLoader) (prev_load_needed : Bool) :
    Option (ImageLoader × Bool) :=
  match self.preload_queue with
  | [] =>
    let self :=
      if prev_load_needed then
        match self.limit_cache with
        | .ok s => s
        | .error _ => self
      else self
    some (self, false)
  | index :: rest =>
    let self := { self with preload_queue := rest }
    let load_needed := !self.cache.containsKey index
    match self.scanned_paths.get? index with
    | none => none
    | some path =>
      if load_needed then
        let entry : ImageCache :=
          match decode index path with
          | .ok image => { path := some path, image := image, emsg := none }
          | .error err =>
            { path := some path, image := Image.new 1 1, emsg := some err }
        some ({ self with cache := self.cache.insert index entry }, true)
      else
        let self :=
          if prev_load_needed then
            match self.limit_cache with
            | .ok s => s
            | .error _ => self
          else self
        some (self, false)

/-! Basic facts about `Int.tmod` and `modulo`. -/

/-- For a positive divisor, `tmod` stays strictly above `-b`. -/
theorem tmod_neg_lt (a b : Int) (hb : 0 < b) : -b < a.tmod b := by
  rcases le_or_lt 0 a with ha | ha
  · have := Int.tmod_nonneg b ha
    omega
  · match a, b with
    | Int.negSucc m, Int.ofNat n =>
      have h1 : (Int.negSucc m).tmod (Int.ofNat n) = -(((m + 1) % n : Nat) : Int) := rfl
      have hn : 0 < n := by
        simpa [Int.ofNat_eq_coe] using hb
      have h2 : (m + 1) % n < n := Nat.mod_lt _ hn
      rw [h1]
      simp only [Int.ofNat_eq_coe]
      omega

/-- For a positive divisor, `modulo` agrees with the Euclidean remainder. -/
theorem modulo_eq_emod (a b : Int) (hb : 0 < b) : modulo a b = a % b := by
  have hcong : a.tmod b % b = a % b := by
    conv_rhs => rw [← Int.tmod_add_tdiv a b]
    rw [Int.add_mul_emod_self_left]
  have hlow : -b < a.tmod b := tmod_neg_lt a b hb
  have hnn : 0 ≤ a.tmod b + b := by omega
  unfold modulo
  rw [Int.tmod_eq_emod hnn hb.le]
  have : a.tmod b + b = a.tmod b + b * 1 := by ring
  rw [this, Int.add_mul_emod_self_left, hcong]

/-- `modulo` lands in `[0, b)` for a positive divisor. -/
theorem modulo_mem_range (a b : Int) (hb : 0 < b) :
    0 ≤ modulo a b ∧ modulo a b < b := by
  rw [modulo_eq_emod a b hb]
  exact ⟨Int.emod_nonneg a (by omega), Int.emod_lt_of_pos a hb⟩

/-! Facts about the navigation helpers. -/

/-- With at most one catalog entry, `get_next_index` yields nothing. -/
theorem ImageLoader.get_next_index_eq_none (self : ImageLoader) (amount : Int)
    (h1 : self.scanned_paths.length ≤ 1) :
    self.get_next_index amount = none := by
  unfold ImageLoader.get_next_index
  have : ((self.scanned_paths.length : Int)) ≤ 1 := by exact_mod_cast h1
  simp [this]

/-- With at least two catalog entries, `get_next_index` wraps the advanced
position with `modulo`. -/
theorem ImageLoader.get_next_index_eq_some (self : ImageLoader) (amount : Int)
    (h2 : 2 ≤ self.scanned_paths.length) :
    self.get_next_index amount =
      some (modulo ((self.current_index : Int) + amount)
        (self.scanned_paths.length : Int)).toNat := by
  have hlen : ¬ ((self.scanned_paths.length : Int) ≤ 1) := by
    omega
  simp only [ImageLoader.get_next_index, if_neg hlen]
  split_ifs with h
  · rfl
  · push_neg at h
    have hpos : (0 : Int) < (self.scanned_paths.length : Int) := by omega
    rw [modulo_eq_emod _ _ hpos, Int.emod_eq_of_lt h.1 h.2]

/-- C2: for a non-empty catalog and in-range indices, the circular
distance is symmetric and bounded by `len / 2`. -/
theorem ImageLoader.index_distance_symm_le_half (self : ImageLoader) (a b : Nat)
    (hlen : 0 < self.scanned_paths.length)
    (ha : a < self.scanned_paths.length) (hb : b < self.scanned_paths.length) :
    self.index_distance a b = self.index_distance b a ∧
    self.index_distance a b ≤ self.scanned_paths.length / 2 := by
  simp only [ImageLoader.index_distance]
  split_ifs <;> omega

/-- C2 witness: concrete instance `len = 10`, `a = 1`, `b = 7`. -/
theorem index_distance_symm_le_half_witness :
    ({ ImageLoader.new 2 with
        scanned_paths := ["a", "b", "c", "d", "e", "f", "g", "h", "i", "j"] }
      : ImageLoader).index_distance 1 7 =
      ({ ImageLoader.new 2 with
          scanned_paths := ["a", "b", "c", "d", "e", "f", "g", "h", "i", "j"] }
        : ImageLoader).index_distance 7 1 ∧
    ({ ImageLoader.new 2 with
        scanned_paths := ["a", "b", "c", "d", "e", "f", "g", "h", "i", "j"] }
      : ImageLoader).index_distance 1 7 ≤ 10 / 2 :=
  ImageLoader.index_distance_symm_le_half _ 1 7 (by decide) (by decide) (by decide)

/-- C3: on a non-empty catalog with an in-range position, `next_index`
leaves the position in `[0, len)` and the result is the advanced
position wrapped by `modulo` (for both positive and negative deltas). -/
theorem ImageLoader.next_index_in_range (self : ImageLoader) (amount : Int)
    (hlen : 0 < self.scanned_paths.length)
    (hcur : self.current_index < self.scanned_paths.length) :
    (self.next_index amount).current_index < self.scanned_paths.length ∧
    (self.next_index amount).scanned_paths = self.scanned_paths ∧
    ((self.next_index amount).current_index : Int) =
      modulo ((self.current_index : Int) + amount)
        (self.scanned_paths.length : Int) := by
  by_cases h1 : self.scanned_paths.length ≤ 1
  · have hl : self.scanned_paths.length = 1 := by omega
    have hc : self.current_index = 0 := by omega
    rw [ImageLoader.next_index, ImageLoader.get_next_index_eq_none self amount h1]
    refine ⟨hcur, rfl, ?_⟩
    rw [hl, hc]
    rw [modulo_eq_emod _ _ (by norm_num)]
    push_cast
    simp [Int.emod_one]
  · have h2 : 2 ≤ self.scanned_paths.length := by omega
    rw [ImageLoader.next_index, ImageLoader.get_next_index_eq_some self amount h2]
    have hpos : (0 : Int) < (self.scanned_paths.length : Int) := by omega
    obtain ⟨hge, hlt⟩ :=
      modulo_mem_range ((self.current_index : Int) + amount)
        (self.scanned_paths.length : Int) hpos
    refine ⟨?_, rfl, ?_⟩
    · simp only []
      omega
    · simp only []
      rw [Int.toNat_of_nonneg hge]

/-- C3 witness: `len = 10`, `position = 0`, `delta = -1` lands on `9`. -/
theorem next_index_in_range_witness :
    (({ ImageLoader.new 2 with
        scanned_paths := ["a", "b", "c", "d", "e", "f", "g", "h", "i", "j"] }
      : ImageLoader).next_index (-1)).current_index <
      ({ ImageLoader.new 2 with
          scanned_paths := ["a", "b", "c", "d", "e", "f", "g", "h", "i", "j"] }
        : ImageLoader).scanned_paths.length ∧
    (({ ImageLoader.new 2 with
        scanned_paths := ["a", "b", "c", "d", "e", "f", "g", "h", "i", "j"] }
      : ImageLoader).next_index (-1)).current_index = 9 :=
  ⟨(ImageLoader.next_index_in_range _ (-1) (by decide) (by decide)).1, by decide⟩

/-- Trivial decoder used for concrete instances: always succeeds with a
1×1 buffer. -/
def decodeOk : Nat → String → Except String Image :=
  fun _ _ => .ok (Image.new 1 1)

/-- C9: `is_last` (and the `last_image` navigation) is only well-defined
on a non-empty catalog: with `N ≥ 1` paths it decides
`current_index = N - 1` (and `last_image` moves there), and with `N = 0`
the `usize` subtraction `N - 1` underflows, so both are undefined. -/
theorem ImageLoader.is_last_requires_nonempty :
    (∀ self : ImageLoader, 1 ≤ self.scanned_paths.length →
       self.is_last =
         some (decide (self.current_index = self.scanned_paths.length - 1)) ∧
       self.last_image =
         some { self with current_index := self.scanned_paths.length - 1 }) ∧
    (∀ self : ImageLoader, self.scanned_paths.length = 0 →
       self.is_last = none ∧ self.last_image = none) := by
  constructor <;> intro self h <;>
    simp [ImageLoader.is_last, ImageLoader.last_image, checkedSub, h]

/-- C9 witness: both conjuncts at concrete loaders (three paths with the
position last, and the empty catalog). -/
theorem is_last_requires_nonempty_witness :
    (({ ImageLoader.new 1 with
        scanned_paths := ["a", "b", "c"]
        current_index := 2 } : ImageLoader).is_last = some true ∧
      ({ ImageLoader.new 1 with
          scanned_paths := ["a", "b", "c"]
          current_index := 2 } : ImageLoader).last_image =
        some { ImageLoader.new 1 with
          scanned_paths := ["a", "b", "c"]
          current_index := 2 }) ∧
    ((ImageLoader.new 1).is_last = none ∧
      (ImageLoader.new 1).last_image = none) :=
  ⟨(ImageLoader.is_last_requires_nonempty.1 _ (by decide)),
    (ImageLoader.is_last_requires_nonempty.2 _ (by decide))⟩

/-- C6 counterexample: `limit_cache` (`trim()`) on an empty cache
returns `Ok`, not an error: an empty cache never exceeds
`max_cache_size`, so the loop and its error branches are never reached. -/
theorem limit_cache_empty_cache_cex :
    (ImageLoader.new 0).cache = [] ∧
    (ImageLoader.new 0).limit_cache = .ok (ImageLoader.new 0) :=
  ⟨rfl, rfl⟩

/-- C6 amended: `limit_cache` called with an empty cache succeeds,
returning the loader unchanged (so the caller sees no failure and the
process does not terminate). -/
theorem ImageLoader.limit_cache_empty_ok (self : ImageLoader)
    (h : self.cache = []) : self.limit_cache = .ok self := by
  unfold ImageLoader.limit_cache
  rw [h]
  rfl

/-- C6 witness: a loader with a non-trivial configuration but an empty
cache. -/
theorem limit_cache_empty_ok_witness :
    ({ ImageLoader.new 3 with scanned_paths := ["a", "b"] }
      : ImageLoader).limit_cache =
      .ok { ImageLoader.new 3 with scanned_paths := ["a", "b"] } :=
  ImageLoader.limit_cache_empty_ok _ rfl

/-- Loader state reachable after a `DroppedFile` event rebuilt a shorter
catalog while the preload queue still holds an index planned against the
old catalog (`main.rs` clears `scanned_paths` and rebuilds them, but
never clears `preload_queue`). -/
def staleLoader : ImageLoader :=
  { ImageLoader.new 2 with scanned_paths := ["a"], preload_queue := [5] }

/-- C8: popping a stale planned index that is out of the catalog's
bounds makes the worker's dequeue step panic (the
`scanned_paths.get(index).unwrap()` in the image-loader thread hits
`None`, modelled as `none`), instead of abandoning the stale work. -/
theorem worker_step_stale_index_panics :
    staleLoader.preload_queue = [5] ∧
    staleLoader.scanned_paths.length = 1 ∧
    worker_step decodeOk staleLoader false = none :=
  ⟨rfl, rfl, rfl⟩

/-! Facts about the cache map. -/

/-- Lookup after insertion finds the inserted entry. -/
theorem CacheMap.get?_insert_self (cache : CacheMap) (k : Nat) (v : ImageCache) :
    (cache.insert k v).get? k = some v := by
  simp [CacheMap.get?, CacheMap.insert, List.find?_cons]

/-- A contained key has a present lookup. -/
theorem CacheMap.get?_isSome_of_containsKey {cache : CacheMap} {k : Nat}
    (h : cache.containsKey k = true) : (cache.get? k).isSome := by
  simp only [CacheMap.containsKey, List.any_eq_true, beq_iff_eq] at h
  obtain ⟨p, hp, hk⟩ := h
  have hs : (List.find? (fun p => p.1 == k) cache).isSome :=
    List.find?_isSome.mpr ⟨p, hp, by simp [hk]⟩
  simp only [CacheMap.get?]
  cases hfind : List.find? (fun p => p.1 == k) cache with
  | none => rw [hfind] at hs; simp at hs
  | some q => simp

/-- C7: a decode failure for an existing catalog path is not propagated:
both the synchronous `ensure_cache` path and the worker's load step
succeed and insert a `CacheEntry` with the path, a 1×1 placeholder
buffer, and the decoder's (non-empty) message. -/
theorem ImageLoader.decode_failure_yields_placeholder
    (decode : Nat → String → Except String Image) (self : ImageLoader)
    (index : Nat) (path e : String)
    (hpath : self.scanned_paths.get? index = some path)
    (hdec : decode index path = .error e)
    (hmiss : self.cache.containsKey index = false)
    (hne : e ≠ "") :
    (∃ self', self.ensure_cache decode index = .ok self' ∧
       self'.cache.get? index =
         some { path := some path, image := Image.new 1 1, emsg := some e } ∧
       (some e ≠ (none : Option String) ∧ e ≠ "")) ∧
    (∀ prev : Bool, ∃ self',
       worker_step decode { self with preload_queue := index :: self.preload_queue }
           prev =
         some (self', true) ∧
       self'.cache.get? index =
         some { path := some path, image := Image.new 1 1, emsg := some e }) := by
  have hpath2 : self.scanned_paths[index]? = some path := by
    simpa using hpath
  constructor
  · have heq : self.ensure_cache decode index =
        .ok { self with cache := (self.cache.insert index
          ⟨some path, Image.new 1 1, some e⟩) } := by
      simp [ImageLoader.ensure_cache, hmiss, hpath2, hdec]
    exact ⟨_, heq, CacheMap.get?_insert_self _ _ _, by simp, hne⟩
  · intro prev
    have heq : worker_step decode
        { self with preload_queue := index :: self.preload_queue } prev =
        some ({ self with cache := (self.cache.insert index
          ⟨some path, Image.new 1 1, some e⟩) }, true) := by
      simp [worker_step, hmiss, hpath2, hdec]
    exact ⟨_, heq, CacheMap.get?_insert_self _ _ _⟩

/-- Failing decoder used for concrete instances. -/
def decodeFail : Nat → String → Except String Image :=
  fun _ path => .error ("failed to open the image: " ++ path)

/-- C7 witness: a single-path catalog whose decode fails. -/
theorem decode_failure_yields_placeholder_witness :
    ∃ self', ({ ImageLoader.new 1 with scanned_paths := ["bad.png"] }
        : ImageLoader).ensure_cache decodeFail 0 = .ok self' ∧
      self'.cache.get? 0 =
        some (⟨some "bad.png", Image.new 1 1,
          some "failed to open the image: bad.png"⟩ : ImageCache) ∧
      (some "failed to open the image: bad.png" ≠ (none : Option String) ∧
        "failed to open the image: bad.png" ≠ "") := by
  obtain ⟨h1, _h2⟩ :=
    ImageLoader.decode_failure_yields_placeholder decodeFail
      { ImageLoader.new 1 with scanned_paths := ["bad.png"] } 0 "bad.png"
      "failed to open the image: bad.png" (by decide) rfl (by decide) (by decide)
  exact h1

/-- Reduction of `Except` bind on a success value. -/
theorem except_ok_bind {ε α β : Type} (a : α) (f : α → Except ε β) :
    (Except.ok (ε := ε) a >>= f) = f a := rfl

/-- C10: fetching the current entry when the current index has no
backing catalog path (in particular on an empty catalog) succeeds and
installs a placeholder entry whose path and error message are both
absent and whose buffer is 1×1. -/
theorem ImageLoader.get_current_missing_path_placeholder
    (decode : Nat → String → Except String Image) (self : ImageLoader)
    (hpath : self.scanned_paths.get? self.current_index = none)
    (hmiss : self.cache.containsKey self.current_index = false) :
    ∃ self', self.get_current decode =
        .ok (self', (⟨none, Image.new 1 1, none⟩ : ImageCache)) ∧
      self'.cache.get? self.current_index =
        some (⟨none, Image.new 1 1, none⟩ : ImageCache) := by
  have hpath2 : self.scanned_paths[self.current_index]? = none := by
    simpa using hpath
  have hens : self.ensure_cache decode self.current_index =
      .ok { self with cache := (self.cache.insert self.current_index
        ⟨none, Image.new 1 1, none⟩) } := by
    simp [ImageLoader.ensure_cache, hmiss, hpath2]
  refine ⟨{ self with
      cache := (self.cache.insert self.current_index ⟨none, Image.new 1 1, none⟩)
      preload_queue := ({ self with cache := (self.cache.insert
        self.current_index ⟨none, Image.new 1 1, none⟩) }
        : ImageLoader).build_queue }, ?_, ?_⟩
  · simp only [ImageLoader.get_current, hens, except_ok_bind,
      CacheMap.get?_insert_self]
  · exact CacheMap.get?_insert_self _ _ _

/-- C10 witness: the empty catalog. -/
theorem get_current_missing_path_placeholder_witness :
    ∃ self', (ImageLoader.new 2).get_current decodeOk =
        .ok (self', (⟨none, Image.new 1 1, none⟩ : ImageCache)) ∧
      self'.cache.get? (ImageLoader.new 2).current_index =
        some (⟨none, Image.new 1 1, none⟩ : ImageCache) :=
  ImageLoader.get_current_missing_path_placeholder decodeOk (ImageLoader.new 2)
    rfl rfl

/-! Characterization of the preload-queue rebuild. -/

/-- Folding appends of two per-element lists is a `flatMap`. -/
theorem foldl_double_append {α β : Type} (t1 t2 : α → List β) (l : List α)
    (q : List β) :
    l.foldl (fun acc x => (acc ++ t1 x) ++ t2 x) q =
      q ++ l.flatMap (fun x => t1 x ++ t2 x) := by
  induction l generalizing q with
  | nil => simp
  | cons a l ih =>
    rw [List.foldl_cons, ih, List.flatMap_cons]
    simp [List.append_assoc]

/-- The queue-rebuild loop as a `flatMap` over `1, …, cache_extent`. -/
theorem ImageLoader.build_queue_eq (self : ImageLoader) :
    self.build_queue =
      (List.range self.cache_extent).flatMap (fun i =>
        (self.get_next_index ((i : Int) + 1)).toList ++
        (self.get_next_index (-((i : Int) + 1))).toList) := by
  simp only [ImageLoader.build_queue]
  exact (foldl_double_append
    (fun i : Nat => (self.get_next_index ((i : Int) + 1)).toList)
    (fun i : Nat => (self.get_next_index (-((i : Int) + 1))).toList)
    (List.range self.cache_extent) []).trans (List.nil_append _)

/-- With at most one catalog entry the rebuilt queue is empty. -/
theorem ImageLoader.build_queue_eq_nil (self : ImageLoader)
    (h1 : self.scanned_paths.length ≤ 1) : self.build_queue = [] := by
  rw [ImageLoader.build_queue_eq]
  simp [ImageLoader.get_next_index_eq_none _ _ h1]

/-- With at least two catalog entries the rebuilt queue is the
interleaved sequence `p+1, p-1, p+2, p-2, …` wrapped by `modulo`. -/
theorem ImageLoader.build_queue_eq_wrap (self : ImageLoader)
    (h2 : 2 ≤ self.scanned_paths.length) :
    self.build_queue =
      (List.range self.cache_extent).flatMap (fun i =>
        [(modulo ((self.current_index : Int) + ((i : Int) + 1))
            (self.scanned_paths.length : Int)).toNat,
         (modulo ((self.current_index : Int) - ((i : Int) + 1))
            (self.scanned_paths.length : Int)).toNat]) := by
  rw [ImageLoader.build_queue_eq]
  congr 1
  funext i
  rw [ImageLoader.get_next_index_eq_some _ _ h2,
    ImageLoader.get_next_index_eq_some _ _ h2]
  simp [sub_eq_add_neg]

/-- Changing only the cache leaves the rebuilt queue unchanged. -/
theorem ImageLoader.build_queue_cache_irrelevant (self : ImageLoader)
    (c : CacheMap) :
    ({ self with cache := c } : ImageLoader).build_queue = self.build_queue :=
  rfl

/-- The synchronous path of `ensure_cache` always succeeds and only
touches the cache, which afterwards holds the index. -/
theorem ImageLoader.ensure_cache_exists
    (decode : Nat → String → Except String Image) (self : ImageLoader)
    (index : Nat) :
    ∃ c : CacheMap, self.ensure_cache decode index = .ok { self with cache := c } ∧
      (CacheMap.get? c index).isSome := by
  by_cases hc : self.cache.containsKey index = true
  · refine ⟨self.cache, ?_, CacheMap.get?_isSome_of_containsKey hc⟩
    simp [ImageLoader.ensure_cache, hc]
  · unfold ImageLoader.ensure_cache
    rw [if_neg hc]
    exact ⟨_, rfl, by simp [CacheMap.get?_insert_self]⟩

/-- The fetch of the current entry always succeeds, returning the loader
with an updated cache and the queue rebuilt on it. -/
theorem ImageLoader.get_current_exists
    (decode : Nat → String → Except String Image) (self : ImageLoader) :
    ∃ (c : CacheMap) (entry : ImageCache),
      CacheMap.get? c self.current_index = some entry ∧
      self.get_current decode =
        .ok ({ self with
          cache := c
          preload_queue := self.build_queue }, entry) := by
  obtain ⟨c, hok, hsome⟩ := self.ensure_cache_exists decode self.current_index
  obtain ⟨entry, hentry⟩ := Option.isSome_iff_exists.mp hsome
  refine ⟨c, entry, hentry, ?_⟩
  have hq : ({ self with cache := c } : ImageLoader).build_queue =
      self.build_queue := rfl
  simp only [ImageLoader.get_current, hok, except_ok_bind, hentry, hq]

/-- Loader of §8's planner instance: ten paths, position 5, radius 2. -/
def exampleLoader : ImageLoader :=
  { ImageLoader.new 2 with
    scanned_paths := ["a", "b", "c", "d", "e", "f", "g", "h", "i", "j"]
    current_index := 5 }

/-- C4: fetching the current entry always succeeds and replaces the
preload queue with exactly `p+1, p-1, …, p+r, p-r` wrapped by `modulo`
(empty when the catalog has at most one entry); on the concrete instance
`position = 5`, `len = 10`, `radius = 2` the queue is `[6, 4, 7, 3]`. -/
theorem ImageLoader.get_current_rebuilds_queue :
    (∀ (decode : Nat → String → Except String Image) (self : ImageLoader),
       ∃ r : ImageLoader × ImageCache,
         self.get_current decode = .ok r ∧
         r.1.preload_queue =
           (if self.scanned_paths.length ≤ 1 then ([] : List Nat)
            else (List.range self.cache_extent).flatMap (fun i =>
              [(modulo ((self.current_index : Int) + ((i : Int) + 1))
                  (self.scanned_paths.length : Int)).toNat,
               (modulo ((self.current_index : Int) - ((i : Int) + 1))
                  (self.scanned_paths.length : Int)).toNat]))) ∧
    (exampleLoader.get_current decodeOk).map (fun r => r.1.preload_queue) =
      .ok [6, 4, 7, 3] := by
  constructor
  · intro decode self
    obtain ⟨c, entry, hget, hok⟩ := self.get_current_exists decode
    refine ⟨_, hok, ?_⟩
    by_cases h1 : self.scanned_paths.length ≤ 1
    · simp [h1, ImageLoader.build_queue_eq_nil self h1]
    · have h2 : 2 ≤ self.scanned_paths.length := by omega
      simp [h1, ImageLoader.build_queue_eq_wrap self h2]
  · rfl

/-- Loader with two paths and radius 1: `p+1` and `p-1` wrap to the same
index. -/
def dupLoader : ImageLoader :=
  { ImageLoader.new 1 with scanned_paths := ["a", "b"] }

/-- C5 counterexample: on a two-entry catalog with radius 1 the queue
rebuilt by `get_current` is `[1, 1]`, which contains a duplicate. -/
theorem preload_queue_duplicates_cex :
    (dupLoader.get_current decodeOk).map (fun r => r.1.preload_queue) =
      .ok [1, 1] ∧
    ¬ ([1, 1] : List Nat).Nodup := ⟨rfl, by decide⟩

/-- C5 amended: the queue rebuilt by `get_current` has pairwise distinct
indices provided the catalog is longer than twice the look-ahead radius
(`2 * cache_extent < len`); otherwise opposite or far offsets can wrap
to the same index. -/
theorem ImageLoader.preload_queue_nodup_of_extent_lt_len
    (decode : Nat → String → Except String Image) (self : ImageLoader)
    (h : 2 * self.cache_extent < self.scanned_paths.length) :
    ∃ r : ImageLoader × ImageCache,
      self.get_current decode = .ok r ∧ r.1.preload_queue.Nodup := by
  obtain ⟨c, entry, hget, hok⟩ := self.get_current_exists decode
  refine ⟨_, hok, ?_⟩
  show self.build_queue.Nodup
  by_cases h1 : self.scanned_paths.length ≤ 1
  · rw [ImageLoader.build_queue_eq_nil self h1]
    exact List.nodup_nil
  · have h2 : 2 ≤ self.scanned_paths.length := by omega
    rw [ImageLoader.build_queue_eq_wrap self h2]
    have hmap : (List.range self.cache_extent).flatMap (fun i =>
        [(modulo ((self.current_index : Int) + ((i : Int) + 1))
            (self.scanned_paths.length : Int)).toNat,
         (modulo ((self.current_index : Int) - ((i : Int) + 1))
            (self.scanned_paths.length : Int)).toNat]) =
        ((List.range self.cache_extent).flatMap (fun i =>
          [((i : Int) + 1), -((i : Int) + 1)])).map
          (fun o => (modulo ((self.current_index : Int) + o)
            (self.scanned_paths.length : Int)).toNat) := by
      rw [List.map_flatMap]
      congr 1
    rw [hmap]
    have hbound : ∀ z ∈ (List.range self.cache_extent).flatMap (fun i =>
        [((i : Int) + 1), -((i : Int) + 1)]),
        -(self.cache_extent : Int) ≤ z ∧ z ≤ (self.cache_extent : Int) := by
      intro z hz
      rw [List.mem_flatMap] at hz
      obtain ⟨i, hi, hzi⟩ := hz
      rw [List.mem_range] at hi
      simp only [List.mem_cons, List.not_mem_nil, or_false] at hzi
      rcases hzi with hzi | hzi <;> subst hzi <;> omega
    apply List.Nodup.map_on
    · intro x hx y hy hxy
      obtain ⟨hx1, hx2⟩ := hbound x hx
      obtain ⟨hy1, hy2⟩ := hbound y hy
      have hlenpos : (0 : Int) < (self.scanned_paths.length : Int) := by omega
      have e1 := modulo_mem_range ((self.current_index : Int) + x)
        (self.scanned_paths.length : Int) hlenpos
      have e2 := modulo_mem_range ((self.current_index : Int) + y)
        (self.scanned_paths.length : Int) hlenpos
      have hmods : modulo ((self.current_index : Int) + x)
          (self.scanned_paths.length : Int) =
          modulo ((self.current_index : Int) + y)
            (self.scanned_paths.length : Int) := by
        have hcast := congrArg (fun n : Nat => (n : Int)) hxy
        simpa [Int.toNat_of_nonneg e1.1, Int.toNat_of_nonneg e2.1] using hcast
      rw [modulo_eq_emod _ _ hlenpos, modulo_eq_emod _ _ hlenpos] at hmods
      have hdvd : ((self.scanned_paths.length : Int)) ∣
          (((self.current_index : Int) + x) - ((self.current_index : Int) + y)) :=
        Int.dvd_of_emod_eq_zero (Int.emod_eq_emod_iff_emod_sub_eq_zero.mp hmods)
      have hsub : ((self.current_index : Int) + x) -
          ((self.current_index : Int) + y) = x - y := by ring
      rw [hsub] at hdvd
      have hz : x - y = 0 :=
        Int.eq_zero_of_abs_lt_dvd hdvd (by rw [abs_lt]; constructor <;> omega)
      omega
    · rw [List.nodup_flatMap]
      constructor
      · intro i hi
        simp only [List.nodup_cons, List.mem_singleton, List.not_mem_nil,
          not_false_iff, List.nodup_nil, and_true]
        omega
      · have hr : List.Pairwise (fun i j : Nat => i ≠ j)
            (List.range self.cache_extent) := List.nodup_range _
        refine hr.imp ?_
        intro i j hij
        intro z hzi hzj
        simp only [List.mem_cons, List.not_mem_nil, or_false] at hzi hzj
        rcases hzi with hzi | hzi <;> rcases hzj with hzj | hzj <;>
          subst hzi <;> omega

/-- C5 witness: the amended claim at `len = 10`, `radius = 2`,
`position = 5`. -/
theorem preload_queue_nodup_witness :
    2 * exampleLoader.cache_extent < exampleLoader.scanned_paths.length ∧
    ∃ r : ImageLoader × ImageCache,
      exampleLoader.get_current decodeOk = .ok r ∧ r.1.preload_queue.Nodup :=
  ⟨by decide,
    ImageLoader.preload_queue_nodup_of_extent_lt_len decodeOk exampleLoader
      (by decide)⟩

/-! Facts about eviction (`limit_cache`). -/

/-- Removing a present key from a duplicate-free cache removes exactly
one entry. -/
theorem CacheMap.length_remove_of_mem {cache : CacheMap} {p : Nat × ImageCache}
    (hn : CacheKeysNodup cache) (hp : p ∈ cache) :
    (cache.remove p.1).length + 1 = cache.length := by
  induction cache with
  | nil => cases hp
  | cons q t ih =>
    simp only [CacheKeysNodup, List.map_cons, List.nodup_cons] at hn
    obtain ⟨hq, hnt⟩ := hn
    rcases List.mem_cons.mp hp with rfl | hpt
    · simp only [CacheMap.remove, List.filter_cons]
      have hpred : ¬ (decide (p.1 ≠ p.1) = true) := by simp
      rw [if_neg hpred]
      have hall : t.filter (fun q => decide (q.1 ≠ p.1)) = t := by
        rw [List.filter_eq_self]
        intro x hx
        simp only [decide_eq_true_eq]
        intro hxk
        exact hq (hxk ▸ List.mem_map_of_mem Prod.fst hx)
      rw [hall, List.length_cons]
    · have hqp : q.1 ≠ p.1 := by
        intro hqe
        exact hq (hqe ▸ List.mem_map_of_mem Prod.fst hpt)
      simp only [CacheMap.remove, List.filter_cons]
      rw [if_pos (by simpa using hqp)]
      have := ih hnt hpt
      simp only [CacheMap.remove] at this
      simp only [List.length_cons]
      omega

/-- Removal keeps the keys duplicate-free. -/
theorem CacheKeysNodup.remove {cache : CacheMap} (hn : CacheKeysNodup cache)
    (k : Nat) : CacheKeysNodup (cache.remove k) :=
  List.Nodup.sublist (List.Sublist.map Prod.fst (List.filter_sublist cache)) hn

/-- Insertion keeps the keys duplicate-free (supporting the "after any
sequence of inserts" part of the cache invariant). -/
theorem CacheKeysNodup.insert {cache : CacheMap} (hn : CacheKeysNodup cache)
    (k : Nat) (v : ImageCache) : CacheKeysNodup (cache.insert k v) := by
  simp only [CacheKeysNodup, CacheMap.insert, List.map_cons, List.nodup_cons]
  refine ⟨?_, ?_⟩
  · intro hmem
    obtain ⟨q, hq, hqk⟩ := List.mem_map.mp hmem
    have := (List.mem_filter.mp hq).2
    simp only [decide_eq_true_eq] at this
    exact this hqk
  · exact List.Nodup.sublist
      (List.Sublist.map Prod.fst (List.filter_sublist cache)) hn

/-- In a non-empty cache the maximum distance and the first entry
attaining it both exist, and that entry's distance dominates every
cached entry's distance. -/
theorem ImageLoader.limit_cache_find (self : ImageLoader)
    (hne : self.cache ≠ []) :
    ∃ (d : Nat) (p : Nat × ImageCache),
      (self.cache.map
        (fun q => self.index_distance self.current_index q.1)).max? = some d ∧
      self.cache.find?
        (fun q => self.index_distance self.current_index q.1 == d) = some p ∧
      p ∈ self.cache ∧
      self.index_distance self.current_index p.1 = d ∧
      ∀ q ∈ self.cache, self.index_distance self.current_index q.1 ≤ d := by
  cases hmax : (self.cache.map
      (fun q => self.index_distance self.current_index q.1)).max? with
  | none =>
    rw [List.max?_eq_none_iff, List.map_eq_nil_iff] at hmax
    exact absurd hmax hne
  | some d =>
    have hd := List.max?_eq_some_iff'.mp hmax
    have hfind : (self.cache.find?
        (fun q => self.index_distance self.current_index q.1 == d)).isSome := by
      rw [List.find?_isSome]
      obtain ⟨q, hq, hfq⟩ := List.mem_map.mp hd.1
      exact ⟨q, hq, by simp [hfq]⟩
    obtain ⟨p, hp⟩ := Option.isSome_iff_exists.mp hfind
    refine ⟨d, p, rfl, hp, List.mem_of_find?_eq_some hp, ?_, ?_⟩
    · simpa using List.find?_some hp
    · intro q hq
      exact hd.2 _ (List.mem_map_of_mem _ hq)

/-- Unfolding of one eviction pass when the count still exceeds the
limit. -/
theorem ImageLoader.limit_cache_loop_succ (self : ImageLoader) (n : Nat)
    (hgt : n + 1 > self.max_cache_size) (d : Nat) (p : Nat × ImageCache)
    (hmax : (self.cache.map
      (fun q => self.index_distance self.current_index q.1)).max? = some d)
    (hfind : self.cache.find?
      (fun q => self.index_distance self.current_index q.1 == d) = some p) :
    self.limit_cache_loop (n + 1) =
      ImageLoader.limit_cache_loop
        { self with cache := self.cache.remove p.1 } n := by
  conv_lhs => rw [ImageLoader.limit_cache_loop]
  rw [if_pos hgt, hmax]
  simp only [hfind]

/-- The eviction loop always succeeds and restores the size bound, when
started with the tracked count equal to the cache size (as
`limit_cache` does) over duplicate-free keys. -/
theorem ImageLoader.limit_cache_loop_ok (count : Nat) :
    ∀ self : ImageLoader, CacheKeysNodup self.cache →
    self.cache.length = count →
    ∃ self', self.limit_cache_loop count = .ok self' ∧
      self'.cache.length ≤ self.max_cache_size ∧
      self'.max_cache_size = self.max_cache_size := by
  induction count with
  | zero =>
    intro self _hn hlen
    exact ⟨self, rfl, by omega, rfl⟩
  | succ n ih =>
    intro self hn hlen
    by_cases hgt : n + 1 > self.max_cache_size
    · have hne : self.cache ≠ [] := by
        intro hc
        rw [hc] at hlen
        simp at hlen
      obtain ⟨d, p, hmax, hfind, hmem, _hpd, _hub⟩ := self.limit_cache_find hne
      have hstep := self.limit_cache_loop_succ n hgt d p hmax hfind
      have hn2 : CacheKeysNodup
          ({ self with cache := self.cache.remove p.1 } : ImageLoader).cache :=
        hn.remove p.1
      have hlen2 : ({ self with cache := self.cache.remove p.1 }
          : ImageLoader).cache.length = n := by
        have := CacheMap.length_remove_of_mem hn hmem
        simp only []
        omega
      obtain ⟨self', h1, h2, h3⟩ :=
        ih { self with cache := self.cache.remove p.1 } hn2 hlen2
      exact ⟨self', hstep.trans h1, by simpa using h2, by simpa using h3⟩
    · refine ⟨self, ?_, by omega, rfl⟩
      conv_lhs => rw [ImageLoader.limit_cache_loop]
      rw [if_neg hgt]

/-- C1: over duplicate-free keys (the `HashMap` invariant, preserved by
every insert), `trim()` always succeeds and leaves at most
`max_cache_size = 2*cache_extent + 1` entries; moreover every pass of
the loop removes an entry whose index attains the maximum circular
distance from the current position among the entries present at that
moment. -/
theorem ImageLoader.limit_cache_bound_and_eviction :
    (∀ self : ImageLoader, CacheKeysNodup self.cache →
       ∃ self', self.limit_cache = .ok self' ∧
         self'.cache.length ≤ self.max_cache_size) ∧
    (∀ (cache : CacheMap) (k : Nat) (v : ImageCache),
       CacheKeysNodup cache → CacheKeysNodup (cache.insert k v)) ∧
    (∀ (self : ImageLoader) (count : Nat),
       count + 1 > self.max_cache_size → self.cache ≠ [] →
       ∃ p : Nat × ImageCache, p ∈ self.cache ∧
         (∀ q ∈ self.cache, self.index_distance self.current_index q.1 ≤
           self.index_distance self.current_index p.1) ∧
         self.limit_cache_loop (count + 1) =
           ImageLoader.limit_cache_loop
             { self with cache := self.cache.remove p.1 } count) := by
  refine ⟨?_, ?_, ?_⟩
  · intro self hn
    obtain ⟨self', h1, h2, _h3⟩ :=
      ImageLoader.limit_cache_loop_ok self.cache.length self hn rfl
    exact ⟨self', h1, h2⟩
  · intro cache k v hn
    exact hn.insert k v
  · intro self count hgt hne
    obtain ⟨d, p, hmax, hfind, hmem, hpd, hub⟩ := self.limit_cache_find hne
    refine ⟨p, hmem, ?_, self.limit_cache_loop_succ count hgt d p hmax hfind⟩
    intro q hq
    rw [hpd]
    exact hub q hq

/-- Placeholder cache entry used in concrete instances. -/
def placeholderEntry : ImageCache := ⟨none, Image.new 1 1, none⟩

/-- Loader with three cached entries but capacity one
(`cache_extent = 0`). -/
def overfullLoader : ImageLoader :=
  { ImageLoader.new 0 with
    scanned_paths := ["a", "b", "c"]
    cache := [(0, placeholderEntry), (1, placeholderEntry),
      (2, placeholderEntry)] }

/-- C1 witness: all three conjuncts at concrete inputs. -/
theorem limit_cache_bound_and_eviction_witness :
    (∃ self', overfullLoader.limit_cache = .ok self' ∧
      self'.cache.length ≤ overfullLoader.max_cache_size) ∧
    CacheKeysNodup (CacheMap.insert [(0, placeholderEntry)] 1
      placeholderEntry) ∧
    (∃ p : Nat × ImageCache, p ∈ overfullLoader.cache ∧
      (∀ q ∈ overfullLoader.cache,
        overfullLoader.index_distance overfullLoader.current_index q.1 ≤
          overfullLoader.index_distance overfullLoader.current_index p.1) ∧
      overfullLoader.limit_cache_loop 3 =
        ImageLoader.limit_cache_loop
          { overfullLoader with
            cache := overfullLoader.cache.remove p.1 } 2) :=
  ⟨ImageLoader.limit_cache_bound_and_eviction.1 overfullLoader
      (by unfold CacheKeysNodup; decide),
    ImageLoader.limit_cache_bound_and_eviction.2.1 _ 1 placeholderEntry
      (by unfold CacheKeysNodup; decide),
    ImageLoader.limit_cache_bound_and_eviction.2.2 overfullLoader 2
      (by decide) (by decide)⟩
